import Mathlib

set_option maxHeartbeats 1000000

namespace CalcLang

/-- Half-open span over the source line (parsr token span). The spec (§9)
describes it as a half-open range with a merge operation (min start, max end). -/
structure Span where
  start : Nat
  stop : Nat
  deriving DecidableEq

/-- Merge of two spans, modelling parsr's `Span::from_self_to_other`
(spec §9: merge = min start, max end). -/
def Span.fromSelfToOther (a b : Span) : Span :=
  ⟨min a.start b.start, max a.stop b.stop⟩

/-- Model of parsr's `Span::default()` (used by `Spanned::default_span` in
`run.rs` for the implicit trailing semicolon): the empty span at offset 0. -/
def defaultSpan : Span := ⟨0, 0⟩

/-- Payload together with the span it came from (parsr's `Spanned<T>`). -/
structure Spanned (α : Type) where
  inner : α
  span : Span
  deriving DecidableEq

/-- Model of IEEE-754 binary64 values as used by this program: special values
are explicit and finite values carry an exact rational. Rounding of finite
arithmetic and the sign of zero are not modelled; no claim of this
development depends on either (the claims exercise small exact values and
the zero-divisor cases of division). -/
inductive F64 where
  | finite (q : ℚ)
  | posInf
  | negInf
  | nan
  deriving DecidableEq

/-- IEEE-754 addition on the modelled values (Rust `f64` `+` in `run.rs`). -/
def f64Add : F64 → F64 → F64
  | .nan, _ => .nan
  | _, .nan => .nan
  | .finite a, .finite b => .finite (a + b)
  | .finite _, .posInf => .posInf
  | .finite _, .negInf => .negInf
  | .posInf, .finite _ => .posInf
  | .negInf, .finite _ => .negInf
  | .posInf, .posInf => .posInf
  | .negInf, .negInf => .negInf
  | .posInf, .negInf => .nan
  | .negInf, .posInf => .nan

/-- IEEE-754 subtraction on the modelled values (Rust `f64` `-` in `run.rs`). -/
def f64Sub : F64 → F64 → F64
  | .nan, _ => .nan
  | _, .nan => .nan
  | .finite a, .finite b => .finite (a - b)
  | .finite _, .posInf => .negInf
  | .finite _, .negInf => .posInf
  | .posInf, .finite _ => .posInf
  | .negInf, .finite _ => .negInf
  | .posInf, .posInf => .nan
  | .negInf, .negInf => .nan
  | .posInf, .negInf => .posInf
  | .negInf, .posInf => .negInf

/-- Sign-aware infinity used by multiplication and division cases. -/
def infOfSign (positive : Bool) : F64 :=
  if positive then .posInf else .negInf

/-- IEEE-754 multiplication on the modelled values (Rust `f64` `*`). -/
def f64Mul : F64 → F64 → F64
  | .nan, _ => .nan
  | _, .nan => .nan
  | .finite a, .finite b => .finite (a * b)
  | .finite a, .posInf => if a = 0 then .nan else infOfSign (decide (0 < a))
  | .finite a, .negInf => if a = 0 then .nan else infOfSign (decide (a < 0))
  | .posInf, .finite b => if b = 0 then .nan else infOfSign (decide (0 < b))
  | .negInf, .finite b => if b = 0 then .nan else infOfSign (decide (b < 0))
  | .posInf, .posInf => .posInf
  | .negInf, .negInf => .posInf
  | .posInf, .negInf => .negInf
  | .negInf, .posInf => .negInf

/-- IEEE-754 division on the modelled values (Rust `f64` `/` in the `Div` arm
of `run.rs`): a nonzero finite value divided by zero is a signed infinity and
`0 / 0` is NaN; no error of any kind is produced. -/
def f64Div : F64 → F64 → F64
  | .nan, _ => .nan
  | _, .nan => .nan
  | .finite a, .finite b =>
      if b = 0 then
        if a = 0 then .nan else infOfSign (decide (0 < a))
      else .finite (a / b)
  | .finite _, .posInf => .finite 0
  | .finite _, .negInf => .finite 0
  | .posInf, .finite b => infOfSign (decide (0 ≤ b))
  | .negInf, .finite b => infOfSign (decide (b < 0))
  | .posInf, .posInf => .nan
  | .posInf, .negInf => .nan
  | .negInf, .posInf => .nan
  | .negInf, .negInf => .nan

/-- Identifier handle. The interner (external parsr collaborator) is a
bijective spelling-to-handle table, so handles are modelled by the interned
spelling itself; no claim depends on the numbering of handles. -/
abbrev Id := String

/-- Fixed symbols of the language (`Symbol` in `raw_token.rs`). -/
inductive Symbol where
  | equals
  | add
  | sub
  | mul
  | div
  | leftParen
  | rightParen
  | print
  | semicolon
  deriving DecidableEq

/-- Raw lexed token (`RawToken` in `raw_token.rs`). -/
inductive RawToken where
  | ident (id : Id)
  | number (n : F64)
  | symbol (s : Symbol)
  deriving DecidableEq

/-- Lexer error (`UnexpectedCharacter` in `raw_token.rs`). It is the only
lexer error type in the source: both an unclassifiable character and a
number run that fails to parse produce it. -/
inductive LexErr where
  | unexpectedCharacter
  deriving DecidableEq

/-- Character class started by a digit: Rust reads the run with
`is_numeric(c) || c == '.'` (`raw_token.rs` line 97); modelled on the ASCII
fragment, where `is_numeric` is `isDigit`. -/
def isNumDot (c : Char) : Bool := c.isDigit || c == '.'

/-- Symbol table of the single-character tokens (`raw_token.rs` lines 113-124). -/
def symbolOfChar (c : Char) : Option Symbol :=
  if c = '=' then some .equals
  else if c = '+' then some .add
  else if c = '-' then some .sub
  else if c = '*' then some .mul
  else if c = '/' then some .div
  else if c = '(' then some .leftParen
  else if c = ')' then some .rightParen
  else if c = '%' then some .print
  else if c = ';' then some .semicolon
  else none

/-- Numeric value of one ASCII digit. -/
def digitVal (c : Char) : Nat := c.toNat - 48

/-- Value of a digit run read in base 10. -/
def digitsVal (cs : List Char) : Nat :=
  cs.foldl (fun a c => 10 * a + digitVal c) 0

/-- Exact value of a digit-and-dot run with at most one dot, as Rust
`str::parse::<f64>` reads it (rounding not modelled). -/
def runRat (run : List Char) : ℚ :=
  let intPart := run.takeWhile (fun c => c ≠ '.')
  let fracPart := (run.dropWhile (fun c => c ≠ '.')).drop 1
  (digitsVal intPart : ℚ) + (digitsVal fracPart : ℚ) / ((10 : ℚ) ^ fracPart.length)

/-- Rust `str::parse::<f64>` on a run of digits and dots that starts with a
digit: it succeeds exactly when the run has at most one dot. -/
def parseNumberRun (run : List Char) : Option F64 :=
  if run.count '.' ≤ 1 then some (.finite (runRat run)) else none

/-- Skip leading whitespace (parsr `TrimWhitespace`, applied before each
token in `parse_raw_tokens`), advancing the position. -/
def skipWs : Nat → List Char → Nat × List Char
  | pos, c :: cs => if c.isWhitespace then skipWs (pos + 1) cs else (pos, c :: cs)
  | pos, [] => (pos, [])

/-- One step of the lexer after whitespace has been skipped
(`ParseRawToken::__parse` in `raw_token.rs`): `none` at end of input;
an alphabetic head takes the maximal alphabetic run as an identifier; a
digit head takes the maximal digit-and-dot run and parses it as an `f64`,
failing with `UnexpectedCharacter` spanned over the whole run (the input is
then left unconsumed, as in the source where `entry.consume()` only runs on
success); anything else is a single symbol character or an
`UnexpectedCharacter` at that one character. -/
def lexToken (pos : Nat) (cs : List Char) :
    Option (Except (Spanned LexErr) (Spanned RawToken) × Nat × List Char) :=
  match cs with
  | [] => none
  | c :: _ =>
    if c.isAlpha then
      let run := cs.takeWhile Char.isAlpha
      some (.ok ⟨.ident (String.mk run), ⟨pos, pos + run.length⟩⟩,
            pos + run.length, cs.drop run.length)
    else if c.isDigit then
      let run := cs.takeWhile isNumDot
      match parseNumberRun run with
      | some v =>
          some (.ok ⟨.number v, ⟨pos, pos + run.length⟩⟩,
                pos + run.length, cs.drop run.length)
      | none =>
          some (.error ⟨.unexpectedCharacter, ⟨pos, pos + run.length⟩⟩, pos, cs)
    else
      match symbolOfChar c with
      | some sym => some (.ok ⟨.symbol sym, ⟨pos, pos + 1⟩⟩, pos + 1, cs.drop 1)
      | none => some (.error ⟨.unexpectedCharacter, ⟨pos, pos + 1⟩⟩, pos, cs)

/-- Fuelled iteration of the lexer (`ParseMutIter`); the fuel is chosen so it
never runs out, since every round consumes at least one character. Iteration
stops after the first error, which is all the evaluator ever observes since
it short-circuits there. -/
def lexGo : Nat → Nat → List Char → List (Except (Spanned LexErr) (Spanned RawToken))
  | 0, _, _ => []
  | fuel + 1, pos, cs =>
    let (pos2, cs2) := skipWs pos cs
    match lexToken pos2 cs2 with
    | none => []
    | some (.ok t, pos3, cs3) => .ok t :: lexGo fuel pos3 cs3
    | some (.error e, _, _) => [.error e]

/-- Lex one full line (`parse_raw_tokens` in `raw_token.rs`). -/
def lexLine (s : String) : List (Except (Spanned LexErr) (Spanned RawToken)) :=
  lexGo (s.length + 1) 0 s.data

/-- Resolver structural error (`ProcessorError` in `tokens.rs`). -/
inductive ProcessorError where
  | expectedExpression
  | didNotExpectExpression
  | unclosedLeftBracket
  | unclosedRightBracket
  deriving DecidableEq

/-- Operator of the language (`Operator` in `tokens.rs`). -/
inductive Operator where
  | equals
  | add
  | sub
  | mul
  | div
  | print
  | semicolon
  deriving DecidableEq

/-- Resolved value (`Value` in `tokens.rs`). -/
inductive Value where
  | number (n : F64)
  | ident (id : Id)
  deriving DecidableEq

/-- Resolved token (`Token` in `tokens.rs`). -/
inductive Token where
  | value (v : Value)
  | operator (o : Operator)
  deriving DecidableEq

/-- Structural bracket token (`Ordering` in `tokens.rs`; the spec calls it
OrderingToken): reshapes the operator stack, never appears in output. -/
inductive OrderingToken where
  | leftParen
  | rightParen
  deriving DecidableEq

/-- Associativity metadata (parsr `Associativity`). -/
inductive Assoc where
  | left
  | right
  deriving DecidableEq

/-- Precedence of each operator, from `IsResolvedToken for Operator`
(`tokens.rs` lines 138-163). -/
def precOf : Operator → Nat
  | .equals => 1
  | .add => 2
  | .sub => 2
  | .mul => 3
  | .div => 3
  | .print => 4
  | .semicolon => 0

/-- Associativity of each operator, from `IsResolvedToken for Operator`. -/
def assocOf : Operator → Assoc
  | .equals => .right
  | .add => .left
  | .sub => .left
  | .mul => .left
  | .div => .left
  | .print => .right
  | .semicolon => .left

/-- Resolver expectation state (`TokenTree` in `tokens.rs`):
`startExpression` is the spec's ExpectValue, `endExpression` its
ExpectOperator. -/
inductive TokenTree where
  | startExpression
  | endExpression
  deriving DecidableEq

/-- Entry produced by the state transition: a resolved token or an ordering
token (parsr `StackEntry`). -/
inductive RStackEntry where
  | resolved (t : Spanned Token)
  | ordering (o : Spanned OrderingToken)
  deriving DecidableEq

/-- State transition of the resolver mode machine, a direct port of
`HasStateTransition for TokenTree` (`tokens.rs` lines 201-272). -/
def transition : TokenTree → Spanned RawToken →
    Except (Spanned ProcessorError) RStackEntry
  | .startExpression, t =>
    match t.inner with
    | .ident id => .ok (.resolved ⟨.value (.ident id), t.span⟩)
    | .number n => .ok (.resolved ⟨.value (.number n), t.span⟩)
    | .symbol s =>
      match s with
      | .leftParen => .ok (.ordering ⟨.leftParen, t.span⟩)
      | .print => .ok (.resolved ⟨.operator .print, t.span⟩)
      | .semicolon => .ok (.resolved ⟨.operator .semicolon, t.span⟩)
      | _ => .error ⟨.expectedExpression, t.span⟩
  | .endExpression, t =>
    match t.inner with
    | .symbol s =>
      match s with
      | .equals => .ok (.resolved ⟨.operator .equals, t.span⟩)
      | .add => .ok (.resolved ⟨.operator .add, t.span⟩)
      | .sub => .ok (.resolved ⟨.operator .sub, t.span⟩)
      | .mul => .ok (.resolved ⟨.operator .mul, t.span⟩)
      | .div => .ok (.resolved ⟨.operator .div, t.span⟩)
      | .rightParen => .ok (.ordering ⟨.rightParen, t.span⟩)
      | .semicolon => .ok (.resolved ⟨.operator .semicolon, t.span⟩)
      | _ => .error ⟨.didNotExpectExpression, t.span⟩
    | _ => .error ⟨.didNotExpectExpression, t.span⟩

/-- Next expectation state after an entry, a direct port of
`FromStackEntry for TokenTree` (`tokens.rs` lines 177-193). -/
def fromEntry : RStackEntry → TokenTree
  | .resolved t =>
    match t.inner with
    | .value _ => .endExpression
    | .operator _ => .startExpression
  | .ordering o =>
    match o.inner with
    | .leftParen => .startExpression
    | .rightParen => .endExpression

/-- Entry of the resolver operator stack: a pending operator or an open
left parenthesis with its span. -/
inductive OpEntry where
  | op (t : Spanned Operator)
  | lparen (sp : Span)
  deriving DecidableEq

/-- Modelled from the spec: the pop test of the shunting-yard engine, which
lives in the external parsr crate (`CreateTokenProcessor`). Spec §4.2: pop
and emit all stack-top operators that must precede the incoming one, i.e.
strictly higher precedence, or equal precedence when the incoming operator
is left-associative. -/
def mustPrecede (top incoming : Operator) : Bool :=
  precOf incoming < precOf top ||
    (precOf top == precOf incoming && assocOf incoming == Assoc.left)

/-- Modelled from the spec: popping phase when an operator arrives. Emits
stack-top operators while they must precede the incoming one; an open `(`
closes only on its matching `)` and so acts as a barrier. -/
def popForOp : List OpEntry → Operator → List (Spanned Token) × List OpEntry
  | .op t :: rest, incoming =>
    if mustPrecede t.inner incoming then
      let (out, s) := popForOp rest incoming
      (⟨.operator t.inner, t.span⟩ :: out, s)
    else ([], .op t :: rest)
  | s, _ => ([], s)

/-- Modelled from the spec: handling of `)`. Pops and emits down to the
nearest unmatched `(`, discarding both parens; `none` when no `(` exists on
the stack. -/
def popToParen : List OpEntry → Option (List (Spanned Token) × List OpEntry)
  | [] => none
  | .lparen _ :: rest => some ([], rest)
  | .op t :: rest =>
    match popToParen rest with
    | some (out, s) => some (⟨.operator t.inner, t.span⟩ :: out, s)
    | none => none

/-- Modelled from the spec: end-of-input flush. Pops and emits all remaining
operators; any `(` still on the stack fails with `UnclosedLeftBracket` at
that paren's span (`State::no_ordering_found` in `tokens.rs`). Tokens
emitted before the failing paren is reached are still yielded first, as the
Rust iterator yields them before the error. -/
def flushStack : List OpEntry → List (Spanned Token) × Option (Spanned ProcessorError)
  | [] => ([], none)
  | .op t :: rest =>
    let (out, e) := flushStack rest
    (⟨.operator t.inner, t.span⟩ :: out, e)
  | .lparen sp :: _ => ([], some ⟨.unclosedLeftBracket, sp⟩)

/-- Modelled from the spec: one engine step on a raw token. The mode machine
(`transition`, `fromEntry`) is ported from the source; values are emitted
immediately, operators reorder through the stack, `(` is pushed, and `)`
pops to its match or fails `UnclosedRightBracket` at the `)` span
(`State::delete_closed_ordering` in `tokens.rs`). Re-emission spans of
operators are kept as the operator token's own span; no claim theorem below
depends on output spans, only on output payloads and on error spans. -/
def procStep (mode : TokenTree) (stack : List OpEntry) (t : Spanned RawToken) :
    Except (Spanned ProcessorError) (List (Spanned Token) × TokenTree × List OpEntry) :=
  match transition mode t with
  | .error e => .error e
  | .ok entry =>
    let mode2 := fromEntry entry
    match entry with
    | .resolved tok =>
      match tok.inner with
      | .value _ => .ok ([tok], mode2, stack)
      | .operator o =>
        let (out, s) := popForOp stack o
        .ok (out, mode2, .op ⟨o, tok.span⟩ :: s)
    | .ordering ord =>
      match ord.inner with
      | .leftParen => .ok ([], mode2, .lparen ord.span :: stack)
      | .rightParen =>
        match popToParen stack with
        | some (out, s) => .ok (out, mode2, s)
        | none => .error ⟨.unclosedRightBracket, ord.span⟩

/-- Result of running the engine over a list of raw tokens: either the
tokens emitted so far with the final mode and stack, or the tokens emitted
before the first structural error together with that error. -/
inductive ProcResult where
  | cont (out : List (Spanned Token)) (mode : TokenTree) (stack : List OpEntry)
  | fail (out : List (Spanned Token)) (e : Spanned ProcessorError)
  deriving DecidableEq

/-- Modelled from the spec: the engine run over a raw token list, without
the end-of-input flush. -/
def processList : TokenTree → List OpEntry → List (Spanned RawToken) → ProcResult
  | mode, stack, [] => .cont [] mode stack
  | mode, stack, t :: ts =>
    match procStep mode stack t with
    | .error e => .fail [] e
    | .ok (out, mode2, stack2) =>
      match processList mode2 stack2 ts with
      | .cont out2 mode3 stack3 => .cont (out ++ out2) mode3 stack3
      | .fail out2 e => .fail (out ++ out2) e

/-- Modelled from the spec: the full resolver (`resolved_tokens` in
`tokens.rs` over parsr's `CreateTokenProcessor`): process every token from
the initial ExpectValue state and empty stack, then flush. The result is
the emitted token sequence together with the structural error, if any, that
ends the stream. -/
def resolvedTokens (ts : List (Spanned RawToken)) :
    List (Spanned Token) × Option (Spanned ProcessorError) :=
  match processList .startExpression [] ts with
  | .cont out _ stack =>
    let (out2, e) := flushStack stack
    (out ++ out2, e)
  | .fail out e => (out, some e)

/-- Token-stage error (`TokenError` in `tokens.rs`). -/
inductive TokenError where
  | rawToken (e : LexErr)
  | processorError (e : ProcessorError)
  deriving DecidableEq

/-- Runtime error (`RunError` in `run.rs`; `DivisionByZero` is commented out
in the source and so absent here). -/
inductive RunError where
  | unassignedVariable
  | assigningToExpression
  | assigningToNull
  | attemptedToUseNull
  | attemptedToPrintNull
  deriving DecidableEq

/-- Error container of the evaluator (`RunErrorContainer` in `run.rs`). -/
inductive RunErrorContainer where
  | tokenError (e : TokenError)
  | runError (e : RunError)
  deriving DecidableEq

/-- Evaluator stack entry (`Stack` in `run.rs`). -/
inductive Stack where
  | value (n : F64)
  | ident (id : Id)
  | null
  deriving DecidableEq

/-- The persistent variable environment (`State.variables` in `run.rs`, a
hash map). Modelled as an association list with unique keys; `envLookup`
and `envInsert` give the map semantics of `HashMap::get`/`HashMap::insert`. -/
abbrev Env := List (Id × F64)

/-- Map lookup (`HashMap::get`). -/
def envLookup (env : Env) (id : Id) : Option F64 :=
  match env with
  | [] => none
  | (k, v) :: rest => if k = id then some v else envLookup rest id

/-- Map insert (`HashMap::insert`): overwrites any prior binding and keeps
keys unique. -/
def envInsert (id : Id) (v : F64) (env : Env) : Env :=
  (id, v) :: (env : List (Id × F64)).filter (fun p => p.1 ≠ id)

/-- Result of `pop_number` (`run.rs` lines 71-93). `panic` models the
`stack.pop().unwrap()` on an empty stack, which aborts the process. -/
inductive PopRes where
  | panic
  | fail (e : Spanned RunErrorContainer)
  | ok (n : Spanned F64) (rest : List (Spanned Stack))
  deriving DecidableEq

/-- Port of `pop_number`: pop the top entry and resolve it to a number,
failing `UnassignedVariable` on an unbound identifier and
`AttemptedToUseNull` on the null placeholder; aborts on an empty stack. -/
def popNumber (env : Env) : List (Spanned Stack) → PopRes
  | [] => .panic
  | e :: rest =>
    match e.inner with
    | .value n => .ok ⟨n, e.span⟩ rest
    | .ident id =>
      match envLookup env id with
      | some v => .ok ⟨v, e.span⟩ rest
      | none => .fail ⟨.runError .unassignedVariable, e.span⟩
    | .null => .fail ⟨.runError .attemptedToUseNull, e.span⟩

/-- Result of one evaluator step. `panic` models any `unwrap` on an empty
stack; `fail` carries the error of the step, which never mutates the
environment or the output before failing. -/
inductive StepRes where
  | ok (env : Env) (out : List F64) (stack : List (Spanned Stack))
  | fail (e : Spanned RunErrorContainer)
  | panic
  deriving DecidableEq

/-- Null-collapsing loop of the `Semicolon` arm (`run.rs` lines 225-233):
pop while the top is `Null`, merging spans. -/
def collapseNulls (sp : Span) : List (Spanned Stack) → Span × List (Spanned Stack)
  | ⟨.null, sp2⟩ :: rest => collapseNulls (sp2.fromSelfToOther sp) rest
  | s => (sp, s)

/-- Shared shape of the `Add`/`Sub`/`Mul`/`Div` arms of `run` (`run.rs`
lines 137-176): pop the right then the left operand as numbers and push the
combined value spanning both. -/
def binArm (f : F64 → F64 → F64) (env : Env) (out : List F64)
    (stack : List (Spanned Stack)) : StepRes :=
  match popNumber env stack with
  | .panic => .panic
  | .fail e => .fail e
  | .ok right rest =>
    match popNumber env rest with
    | .panic => .panic
    | .fail e => .fail e
    | .ok left rest2 =>
      .ok env out (⟨.value (f left.inner right.inner),
        left.span.fromSelfToOther right.span⟩ :: rest2)

/-- One evaluator step, a direct port of the token match in `run`
(`run.rs` lines 106-238). The output side channel is modelled as the list
of values written by `Print` (each Rust write is a space followed by the
value). -/
def step (env : Env) (out : List F64) (stack : List (Spanned Stack))
    (tok : Spanned Token) : StepRes :=
  match tok.inner with
  | .value (.number n) => .ok env out (⟨.value n, tok.span⟩ :: stack)
  | .value (.ident id) => .ok env out (⟨.ident id, tok.span⟩ :: stack)
  | .operator .equals =>
    match popNumber env stack with
    | .panic => .panic
    | .fail e => .fail e
    | .ok num rest =>
      match rest with
      | [] => .panic
      | varEntry :: rest2 =>
        match varEntry.inner with
        | .ident id =>
          .ok (envInsert id num.inner env) out
            (⟨.ident id, varEntry.span.fromSelfToOther num.span⟩ :: rest2)
        | .value _ => .fail ⟨.runError .assigningToExpression, varEntry.span⟩
        | .null => .fail ⟨.runError .assigningToNull, varEntry.span⟩
  | .operator .add => binArm f64Add env out stack
  | .operator .sub => binArm f64Sub env out stack
  | .operator .mul => binArm f64Mul env out stack
  | .operator .div => binArm f64Div env out stack
  | .operator .print =>
    match stack with
    | [] => .panic
    | popped :: rest =>
      match popped.inner with
      | .value n =>
        .ok env (out ++ [n]) (⟨popped.inner, tok.span.fromSelfToOther popped.span⟩ :: rest)
      | .ident id =>
        match envLookup env id with
        | some v =>
          .ok env (out ++ [v]) (⟨popped.inner, tok.span.fromSelfToOther popped.span⟩ :: rest)
        | none => .fail ⟨.runError .unassignedVariable, popped.span⟩
      | .null => .fail ⟨.runError .attemptedToPrintNull, popped.span⟩
  | .operator .semicolon =>
    match stack with
    | [] =>
      let sp := (defaultSpan.fromSelfToOther tok.span)
      .ok env out [⟨.null, sp⟩]
    | popped :: rest =>
      match popped.inner with
      | .ident id =>
        if envLookup env id = none then
          .fail ⟨.runError .unassignedVariable, popped.span⟩
        else
          let (sp, rest2) := collapseNulls (popped.span.fromSelfToOther tok.span) rest
          .ok env out (⟨.null, sp⟩ :: rest2)
      | _ =>
        let (sp, rest2) := collapseNulls (popped.span.fromSelfToOther tok.span) rest
        .ok env out (⟨.null, sp⟩ :: rest2)

/-- Outcome of a whole evaluation: success, the first error (with the
environment and output as they stood at that point), or a process abort
from a stack underflow (`unwrap` on an empty stack). -/
inductive RunOutcome where
  | ok (env : Env) (out : List F64) (stack : List (Spanned Stack))
  | err (e : Spanned RunErrorContainer) (env : Env) (out : List F64)
  | panic
  deriving DecidableEq

/-- Left-to-right evaluation of a resolved token list (the loop of `run`),
short-circuiting at the first failing step. -/
def runList (env : Env) (out : List F64) (stack : List (Spanned Stack)) :
    List (Spanned Token) → RunOutcome
  | [] => .ok env out stack
  | t :: ts =>
    match step env out stack t with
    | .ok env2 out2 stack2 => runList env2 out2 stack2 ts
    | .fail e => .err e env out
    | .panic => .panic

/-- Port of `run` (`run.rs` lines 95-242) fed with the resolver result: the
emitted tokens run first; a pending resolver error is then reported (the
Rust iterator yields it after the tokens emitted before it, and `run`
returns at it); otherwise the implicit trailing semicolon
(`Spanned::default_span`) executes. -/
def runProgram (env : Env)
    (p : List (Spanned Token) × Option (Spanned ProcessorError)) : RunOutcome :=
  match runList env [] [] p.1 with
  | .ok env2 out2 stack2 =>
    match p.2 with
    | some pe => .err ⟨.tokenError (.processorError pe.inner), pe.span⟩ env2 out2
    | none =>
      match step env2 out2 stack2 ⟨.operator .semicolon, defaultSpan⟩ with
      | .ok env3 out3 stack3 => .ok env3 out3 stack3
      | .fail e => .err e env2 out2
      | .panic => .panic
  | .err e env2 out2 => .err e env2 out2
  | .panic => .panic

/-- Full pipeline from a raw token list: resolve, then evaluate. -/
def runRaws (env : Env) (ts : List (Spanned RawToken)) : RunOutcome :=
  runProgram env (resolvedTokens ts)

/-- A run of N consecutive semicolon tokens, the i-th spanning [i, i+1). -/
def semiToks (N : Nat) : List (Spanned Token) :=
  (List.range N).map (fun i => ⟨.operator .semicolon, ⟨i, i + 1⟩⟩)

/-- The four arithmetic binary operators of claim C2. -/
inductive BinOp where
  | add
  | sub
  | mul
  | div
  deriving DecidableEq

/-- Precedence of a binary operator (spec table: + - at 2, * / at 3). -/
def precB : BinOp → Nat
  | .add => 2
  | .sub => 2
  | .mul => 3
  | .div => 3

/-- The resolved operator of a binary operator. -/
def opOf : BinOp → Operator
  | .add => .add
  | .sub => .sub
  | .mul => .mul
  | .div => .div

/-- The raw symbol of a binary operator. -/
def symOf : BinOp → Symbol
  | .add => .add
  | .sub => .sub
  | .mul => .mul
  | .div => .div

/-- Well-bracketed arithmetic expression over numbers, identifiers,
`+ - * /` and parentheses: the token strings of claim C2, as syntax trees
that record the explicit parentheses. -/
inductive AExpr where
  | num (n : F64)
  | var (id : Id)
  | paren (e : AExpr)
  | bin (o : BinOp) (l r : AExpr)
  deriving DecidableEq

/-- Effective precedence of a node: atoms and parenthesised groups bind
tighter than any operator. -/
def nprec : AExpr → Nat
  | .num _ => 4
  | .var _ => 4
  | .paren _ => 4
  | .bin o _ _ => precB o

/-- The tree respects the precedence table, i.e. it is the standard parse
of its own rendered token string: each left-associative operator node binds
children of high enough precedence (the right child strictly higher),
unless they are explicitly parenthesised. -/
def respectsB : AExpr → Bool
  | .num _ => true
  | .var _ => true
  | .paren e => respectsB e
  | .bin o l r =>
      respectsB l && respectsB r &&
        decide (precB o ≤ nprec l) && decide (precB o + 1 ≤ nprec r)

/-- The infix token string of an expression (all tokens at the default
span; claim C2 is about the output token sequence, not about spans). -/
def render : AExpr → List (Spanned RawToken)
  | .num n => [⟨.number n, defaultSpan⟩]
  | .var id => [⟨.ident id, defaultSpan⟩]
  | .paren e =>
      ⟨.symbol .leftParen, defaultSpan⟩ :: (render e ++ [⟨.symbol .rightParen, defaultSpan⟩])
  | .bin o l r => render l ++ ⟨.symbol (symOf o), defaultSpan⟩ :: render r

/-- The standard postfix (RPN) form of the expression: operands in input
order, each operator after its two operand sequences, parentheses erased. -/
def rpn : AExpr → List Token
  | .num n => [.value (.number n)]
  | .var id => [.value (.ident id)]
  | .paren e => rpn e
  | .bin o l r => rpn l ++ rpn r ++ [.operator (opOf o)]

/-- Span of the topmost (most recently opened) unmatched `(` of the
resolver stack, if any. -/
def firstLParen : List OpEntry → Option Span
  | [] => none
  | .op _ :: rest => firstLParen rest
  | .lparen sp :: _ => some sp

deriving instance DecidableEq for Except

lemma isDigit_not_isAlpha (c : Char) (h : c.isDigit = true) : c.isAlpha = false := by
  simp [Char.isDigit, UInt32.le_def, BitVec.le_def] at h
  simp [Char.isAlpha, Char.isUpper, Char.isLower, UInt32.le_def, BitVec.le_def]
  omega

lemma takeWhile_append_full {α : Type} (p : α → Bool) :
    ∀ (xs ys : List α), (∀ c ∈ xs, p c = true) →
      (∀ c, ys.head? = some c → p c = false) → (xs ++ ys).takeWhile p = xs
  | [], ys, _, h2 => by
      cases ys with
      | nil => rfl
      | cons y t => simp [List.takeWhile_cons, h2 y rfl]
  | x :: t, ys, h1, h2 => by
      simp only [List.cons_append, List.takeWhile_cons, h1 x (by simp), if_true]
      simp [takeWhile_append_full p t ys (fun c hc => h1 c (by simp [hc])) h2]

lemma envLookup_insert_self (env : Env) (id : Id) (v : F64) :
    envLookup (envInsert id v env) id = some v := by
  simp [envInsert, envLookup]

lemma envLookup_filter (idv j : Id) (h : j ≠ idv) :
    ∀ env : List (Id × F64),
      envLookup (env.filter (fun p => p.1 ≠ idv)) j = envLookup env j
  | [] => rfl
  | (k, v) :: rest => by
      rcases eq_or_ne k idv with hk | hk
      · subst hk
        rw [List.filter_cons_of_neg (by simp)]
        have hkj : ¬ k = j := fun hh => h hh.symm
        rw [envLookup_filter k j h rest]
        simp [envLookup, hkj]
      · rw [List.filter_cons_of_pos (by simp [hk])]
        rcases eq_or_ne k j with hkj | hkj
        · simp [envLookup, hkj]
        · simpa [envLookup, hkj] using envLookup_filter idv j h rest

lemma envLookup_insert_other (env : Env) (idv j : Id) (v : F64) (h : j ≠ idv) :
    envLookup (envInsert idv v env) j = envLookup env j := by
  have hij : ¬ idv = j := fun hh => h hh.symm
  simp only [envInsert, envLookup, hij, if_false]
  exact envLookup_filter idv j h env

lemma runList_append (env : Env) (out : List F64) (stack : List (Spanned Stack))
    (pre post : List (Spanned Token)) :
    runList env out stack (pre ++ post) =
      match runList env out stack pre with
      | .ok env2 out2 stack2 => runList env2 out2 stack2 post
      | .err e env2 out2 => .err e env2 out2
      | .panic => .panic := by
  induction pre generalizing env out stack with
  | nil => simp [runList]
  | cons t ts ih =>
    simp only [List.cons_append, runList]
    cases step env out stack t with
    | ok env2 out2 stack2 => exact ih env2 out2 stack2
    | fail e => rfl
    | panic => rfl

lemma collapseNulls_head : ∀ (sp : Span) (l : List (Spanned Stack)) (x : Spanned Stack),
    ((collapseNulls sp l).2).head? = some x → x.inner ≠ .null
  | sp, [], x => by simp [collapseNulls]
  | sp, ⟨.null, sp2⟩ :: rest, x => by
      simp only [collapseNulls]
      exact collapseNulls_head _ rest x
  | sp, ⟨.value n, sp2⟩ :: rest, x => by
      simp only [collapseNulls, List.head?]
      intro h
      cases h
      simp
  | sp, ⟨.ident id, sp2⟩ :: rest, x => by
      simp only [collapseNulls, List.head?]
      intro h
      cases h
      simp

lemma semiToks_succ (N : Nat) :
    semiToks (N + 1) = semiToks N ++ [⟨.operator .semicolon, ⟨N, N + 1⟩⟩] := by
  simp [semiToks, List.range_succ]

lemma runSemis (N : Nat) (h : 1 ≤ N) (env : Env) :
    runList env [] [] (semiToks N) = .ok env [] [⟨.null, ⟨0, N⟩⟩] := by
  induction N, h using Nat.le_induction with
  | base =>
    have h1 : semiToks 1 = [⟨.operator .semicolon, ⟨0, 1⟩⟩] := by decide
    rw [h1]
    simp [runList, step, defaultSpan, Span.fromSelfToOther]
  | succ n hn ih =>
    rw [semiToks_succ, runList_append, ih]
    have hsp : (⟨0, n⟩ : Span).fromSelfToOther ⟨n, n + 1⟩ = ⟨0, n + 1⟩ := by
      simp [Span.fromSelfToOther]
    simp [runList, step, collapseNulls, hsp]

lemma runRat_five : runRat ['5'] = 5 := by
  simp +decide [runRat, digitsVal, digitVal, List.takeWhile, List.dropWhile]

lemma runRat_one : runRat ['1'] = 1 := by
  simp +decide [runRat, digitsVal, digitVal, List.takeWhile, List.dropWhile]

lemma runRat_zero : runRat ['0'] = 0 := by
  simp +decide [runRat, digitsVal, digitVal, List.takeWhile, List.dropWhile]

lemma lexLine_five_print :
    lexLine "5 % ;" =
      [.ok ⟨.number (.finite 5), ⟨0, 1⟩⟩,
       .ok ⟨.symbol .print, ⟨2, 3⟩⟩,
       .ok ⟨.symbol .semicolon, ⟨4, 5⟩⟩] := by
  have h0 : lexLine "5 % ;" =
      [.ok ⟨.number (.finite (runRat ['5'])), ⟨0, 1⟩⟩,
       .ok ⟨.symbol .print, ⟨2, 3⟩⟩,
       .ok ⟨.symbol .semicolon, ⟨4, 5⟩⟩] := rfl
  rw [h0, runRat_five]

lemma lexLine_print_five :
    lexLine "% 5 ;" =
      [.ok ⟨.symbol .print, ⟨0, 1⟩⟩,
       .ok ⟨.number (.finite 5), ⟨2, 3⟩⟩,
       .ok ⟨.symbol .semicolon, ⟨4, 5⟩⟩] := by
  have h0 : lexLine "% 5 ;" =
      [.ok ⟨.symbol .print, ⟨0, 1⟩⟩,
       .ok ⟨.number (.finite (runRat ['5'])), ⟨2, 3⟩⟩,
       .ok ⟨.symbol .semicolon, ⟨4, 5⟩⟩] := rfl
  rw [h0, runRat_five]

lemma lexLine_one_div_zero :
    lexLine "1 / 0;" =
      [.ok ⟨.number (.finite 1), ⟨0, 1⟩⟩,
       .ok ⟨.symbol .div, ⟨2, 3⟩⟩,
       .ok ⟨.number (.finite 0), ⟨4, 5⟩⟩,
       .ok ⟨.symbol .semicolon, ⟨5, 6⟩⟩] := by
  have h0 : lexLine "1 / 0;" =
      [.ok ⟨.number (.finite (runRat ['1'])), ⟨0, 1⟩⟩,
       .ok ⟨.symbol .div, ⟨2, 3⟩⟩,
       .ok ⟨.number (.finite (runRat ['0'])), ⟨4, 5⟩⟩,
       .ok ⟨.symbol .semicolon, ⟨5, 6⟩⟩] := rfl
  rw [h0, runRat_one, runRat_zero]

/-- C1 (counterexample): the claim that every resolver-accepted line is
evaluated without stack underflow is false. The single-token line `%` is
accepted by the resolver (it resolves, without error, to the one-operator
output `Print`), yet the evaluator's `Print` arm pops the empty stack with
`stack.pop().unwrap()` and aborts (`RunOutcome.panic`). -/
theorem claimC1_counterexample :
    resolvedTokens [⟨.symbol .print, ⟨0, 1⟩⟩] = ([⟨.operator .print, ⟨0, 1⟩⟩], none) ∧
    runRaws [] [⟨.symbol .print, ⟨0, 1⟩⟩] = .panic := by
  decide

/-- C4 (counterexample): on the line `1.2.3` the lexer consumes the maximal
digit-and-dot run `1.2.3`, which does not parse as a 64-bit float, and
fails with `UnexpectedCharacter` spanned over the run, not with the
`InvalidNumberLiteral` the claim names; no such error variant exists in the
source (`LexErr` has the single constructor `unexpectedCharacter`, ported
from `raw_token.rs` where `UnexpectedCharacter` is the only lexer error
type and is returned on number-parse failure at lines 96-104). -/
theorem claimC4_counterexample :
    lexLine "1.2.3" = [.error ⟨.unexpectedCharacter, ⟨0, 5⟩⟩] := by
  decide

/-- C4 (amended): for every input whose leading character is a digit, the
lexer consumes the maximal run of digits and `.` characters, parses it as a
64-bit float, and fails with `UnexpectedCharacter` spanned over that run
(the only lexer error type) when the run does not parse, e.g. when it
contains two dots. -/
theorem claimC4 (pos : Nat) (run rest : List Char) (c : Char)
    (hhead : run.head? = some c) (hdig : c.isDigit = true)
    (hrun : ∀ d ∈ run, isNumDot d = true)
    (hrest : ∀ d, rest.head? = some d → isNumDot d = false) :
    (run.count '.' ≤ 1 →
      lexToken pos (run ++ rest) =
        some (.ok ⟨.number (.finite (runRat run)), ⟨pos, pos + run.length⟩⟩,
              pos + run.length, rest)) ∧
    (¬ run.count '.' ≤ 1 →
      lexToken pos (run ++ rest) =
        some (.error ⟨.unexpectedCharacter, ⟨pos, pos + run.length⟩⟩,
              pos, run ++ rest)) := by
  cases run with
  | nil => cases hhead
  | cons c0 run2 =>
    have hc0 : c0 = c := by simpa using hhead
    have hdig0 : c0.isDigit = true := by rw [hc0]; exact hdig
    have halpha : c0.isAlpha = false := isDigit_not_isAlpha c0 hdig0
    have htake : ((c0 :: run2) ++ rest).takeWhile isNumDot = c0 :: run2 :=
      takeWhile_append_full isNumDot (c0 :: run2) rest hrun hrest
    have hdrop : ((c0 :: run2) ++ rest).drop (c0 :: run2).length = rest :=
      List.drop_left (c0 :: run2) rest
    constructor
    · intro hle
      simp only [lexToken, List.cons_append, halpha, Bool.false_eq_true, if_false,
        hdig0, if_true]
      rw [show (c0 :: run2) ++ rest = c0 :: (run2 ++ rest) from rfl] at htake hdrop
      rw [htake]
      simp only [parseNumberRun, hle, if_pos, hdrop]
    · intro hgt
      simp only [lexToken, List.cons_append, halpha, Bool.false_eq_true, if_false,
        hdig0, if_true]
      rw [show (c0 :: run2) ++ rest = c0 :: (run2 ++ rest) from rfl] at htake
      rw [htake]
      simp only [parseNumberRun, hgt, if_neg, if_false]

/-- C4 (witness): both branches of the amended claim at concrete inputs:
`12.5+` lexes the number `12.5` spanning [0,4), and `1..2` (a run with two
dots) fails with `UnexpectedCharacter` over [0,4). -/
theorem claimC4_witness :
    (List.head? ['1', '2', '.', '5'] = some '1' ∧
     lexToken 0 (['1', '2', '.', '5'] ++ ['+']) =
       some (.ok ⟨.number (.finite (runRat ['1', '2', '.', '5'])), ⟨0, 4⟩⟩, 4, ['+'])) ∧
    (List.head? ['1', '.', '.', '2'] = some '1' ∧
     lexToken 0 (['1', '.', '.', '2'] ++ []) =
       some (.error ⟨.unexpectedCharacter, ⟨0, 4⟩⟩, 0, ['1', '.', '.', '2'] ++ [])) :=
  ⟨⟨by decide,
    (claimC4 0 ['1', '2', '.', '5'] ['+'] '1' (by decide) (by decide)
      (by decide) (by decide)).1 (by decide)⟩,
   ⟨by decide,
    (claimC4 0 ['1', '.', '.', '2'] [] '1' (by decide) (by decide)
      (by decide) (by decide)).2 (by decide)⟩⟩

/-- C5 (counterexample): the claim's example line `5 % ;` does not produce
output `" 5"`: the resolver's mode machine only accepts `%` in the
expect-value state (`TokenTree::StartExpression`), so after the value `5`
the `%` token fails with `DidNotExpectExpression` at its span [2,3), the
evaluation errors there, and the output channel stays empty. -/
theorem claimC5_counterexample :
    lexLine "5 % ;" =
      [.ok ⟨.number (.finite 5), ⟨0, 1⟩⟩,
       .ok ⟨.symbol .print, ⟨2, 3⟩⟩,
       .ok ⟨.symbol .semicolon, ⟨4, 5⟩⟩] ∧
    runRaws []
      [⟨.number (.finite 5), ⟨0, 1⟩⟩, ⟨.symbol .print, ⟨2, 3⟩⟩,
       ⟨.symbol .semicolon, ⟨4, 5⟩⟩] =
      .err ⟨.tokenError (.processorError .didNotExpectExpression), ⟨2, 3⟩⟩ [] [] := by
  exact ⟨lexLine_five_print, by decide⟩

/-- C5 (amended): executing `Print` peeks the top stack entry, resolves it
to a number, fails `AttemptedToPrintNull` if it is `Null`, emits the value
to the output channel (each Rust write is a space followed by the value),
and pushes the original unresolved entry payload back; the working form of
the claim's example is the prefix line `% 5 ;`, which produces output
`" 5"` (the single emitted value 5). -/
theorem claimC5 :
    (∀ (env : Env) (out : List F64) (sp tokSp : Span) (rest : List (Spanned Stack)),
      step env out (⟨.null, sp⟩ :: rest) ⟨.operator .print, tokSp⟩ =
        .fail ⟨.runError .attemptedToPrintNull, sp⟩) ∧
    (∀ (env : Env) (out : List F64) (n : F64) (sp tokSp : Span)
        (rest : List (Spanned Stack)),
      step env out (⟨.value n, sp⟩ :: rest) ⟨.operator .print, tokSp⟩ =
        .ok env (out ++ [n]) (⟨.value n, tokSp.fromSelfToOther sp⟩ :: rest)) ∧
    (∀ (env : Env) (out : List F64) (idv : Id) (v : F64) (sp tokSp : Span)
        (rest : List (Spanned Stack)),
      envLookup env idv = some v →
      step env out (⟨.ident idv, sp⟩ :: rest) ⟨.operator .print, tokSp⟩ =
        .ok env (out ++ [v]) (⟨.ident idv, tokSp.fromSelfToOther sp⟩ :: rest)) ∧
    (lexLine "% 5 ;" =
      [.ok ⟨.symbol .print, ⟨0, 1⟩⟩,
       .ok ⟨.number (.finite 5), ⟨2, 3⟩⟩,
       .ok ⟨.symbol .semicolon, ⟨4, 5⟩⟩] ∧
     runRaws []
       [⟨.symbol .print, ⟨0, 1⟩⟩, ⟨.number (.finite 5), ⟨2, 3⟩⟩,
        ⟨.symbol .semicolon, ⟨4, 5⟩⟩] =
       .ok [] [.finite 5] [⟨.null, ⟨0, 5⟩⟩]) := by
  refine ⟨?_, ?_, ?_, lexLine_print_five, by decide⟩
  · intro env out sp tokSp rest
    simp [step]
  · intro env out n sp tokSp rest
    simp [step]
  · intro env out idv v sp tokSp rest h
    simp [step, h]

/-- C5 (witness): the bound-identifier case of the amended claim at a
concrete input: printing `a` with `a ↦ 7` emits 7 and keeps the entry. -/
theorem claimC5_witness :
    envLookup [("a", F64.finite 7)] "a" = some (F64.finite 7) ∧
    step [("a", F64.finite 7)] [] [⟨.ident "a", ⟨2, 3⟩⟩] ⟨.operator .print, ⟨0, 1⟩⟩ =
      .ok [("a", F64.finite 7)] [F64.finite 7]
        [⟨.ident "a", Span.fromSelfToOther ⟨0, 1⟩ ⟨2, 3⟩⟩] :=
  ⟨by decide,
   claimC5.2.2.1 [("a", F64.finite 7)] [] "a" (F64.finite 7) ⟨2, 3⟩ ⟨0, 1⟩ []
     (by decide)⟩

/-- C6: executing `Equals` pops and resolves the right entry to a number,
pops the left entry, fails `AssigningToExpression` when it is a `Value` and
`AssigningToNull` when it is `Null`, and on an unresolved `Ident` writes
the binding into the environment (overwriting any prior binding for that
identifier, other keys untouched) and pushes the identifier back. -/
theorem claimC6 (env : Env) (out : List F64) (r l : Spanned Stack)
    (rest : List (Spanned Stack)) (tokSp : Span) (n : Spanned F64)
    (hpop : popNumber env (r :: l :: rest) = .ok n (l :: rest)) :
    (∀ v, l.inner = .value v →
      step env out (r :: l :: rest) ⟨.operator .equals, tokSp⟩ =
        .fail ⟨.runError .assigningToExpression, l.span⟩) ∧
    (l.inner = .null →
      step env out (r :: l :: rest) ⟨.operator .equals, tokSp⟩ =
        .fail ⟨.runError .assigningToNull, l.span⟩) ∧
    (∀ idv, l.inner = .ident idv →
      step env out (r :: l :: rest) ⟨.operator .equals, tokSp⟩ =
        .ok (envInsert idv n.inner env) out
          (⟨.ident idv, l.span.fromSelfToOther n.span⟩ :: rest) ∧
      envLookup (envInsert idv n.inner env) idv = some n.inner ∧
      ∀ j, j ≠ idv → envLookup (envInsert idv n.inner env) j = envLookup env j) := by
  obtain ⟨li, lsp⟩ := l
  refine ⟨?_, ?_, ?_⟩
  · intro v hv
    simp only at hv
    subst hv
    simp [step, hpop]
  · intro hv
    simp only at hv
    subst hv
    simp [step, hpop]
  · intro idv hv
    simp only at hv
    subst hv
    refine ⟨by simp [step, hpop], envLookup_insert_self env idv n.inner, ?_⟩
    intro j hj
    exact envLookup_insert_other env idv j n.inner hj

/-- C6 (witness): assigning to the identifier `a` with right operand 1 on
the stack at a concrete input: the binding lands in the environment and
`a` is pushed back. -/
theorem claimC6_witness :
    popNumber [] [⟨.value (F64.finite 1), ⟨4, 5⟩⟩, ⟨.ident "a", ⟨0, 1⟩⟩] =
      .ok ⟨F64.finite 1, ⟨4, 5⟩⟩ [⟨.ident "a", ⟨0, 1⟩⟩] ∧
    step [] [] [⟨.value (F64.finite 1), ⟨4, 5⟩⟩, ⟨.ident "a", ⟨0, 1⟩⟩]
        ⟨.operator .equals, ⟨2, 3⟩⟩ =
      .ok (envInsert "a" (F64.finite 1) []) []
        [⟨.ident "a", Span.fromSelfToOther ⟨0, 1⟩ ⟨4, 5⟩⟩] :=
  ⟨by decide,
   ((claimC6 [] [] ⟨.value (F64.finite 1), ⟨4, 5⟩⟩ ⟨.ident "a", ⟨0, 1⟩⟩ []
       ⟨2, 3⟩ ⟨F64.finite 1, ⟨4, 5⟩⟩ (by decide)).2.2 "a" rfl).1⟩

/-- C7: evaluating N consecutive semicolon tokens (the i-th spanning
[i, i+1)) from an empty stack leaves exactly one `Null` entry spanning the
whole run [0, N); moreover any successfully executed `Semicolon` leaves a
stack whose top is `Null` and whose next entry, if any, is not `Null`, so
two adjacent `Null` entries never sit on the stack after a semicolon; and
a popped unresolved identifier absent from the environment fails
`UnassignedVariable`. -/
theorem claimC7 :
    (∀ (N : Nat) (env : Env), 1 ≤ N →
      runList env [] [] (semiToks N) = .ok env [] [⟨.null, ⟨0, N⟩⟩]) ∧
    (∀ (env : Env) (out : List F64) (stack : List (Spanned Stack)) (sp : Span)
        (env2 : Env) (out2 : List F64) (stack2 : List (Spanned Stack)),
      step env out stack ⟨.operator .semicolon, sp⟩ = .ok env2 out2 stack2 →
      ∃ sp2 rest, stack2 = ⟨.null, sp2⟩ :: rest ∧
        ∀ x, rest.head? = some x → x.inner ≠ .null) ∧
    (∀ (env : Env) (out : List F64) (idv : Id) (esp sp : Span)
        (rest : List (Spanned Stack)),
      envLookup env idv = none →
      step env out (⟨.ident idv, esp⟩ :: rest) ⟨.operator .semicolon, sp⟩ =
        .fail ⟨.runError .unassignedVariable, esp⟩) := by
  refine ⟨fun N env h => runSemis N h env, ?_, ?_⟩
  · intro env out stack sp env2 out2 stack2 hstep
    cases stack with
    | nil =>
      simp only [step] at hstep
      refine ⟨defaultSpan.fromSelfToOther sp, [], ?_, ?_⟩
      · cases hstep
        rfl
      · intro x hx
        cases hx
    | cons popped rest =>
      obtain ⟨pi, psp⟩ := popped
      cases pi with
      | ident idv =>
        rcases henv : envLookup env idv with _ | v
        · simp [step, henv] at hstep
        · rcases hc : collapseNulls (Span.fromSelfToOther psp sp) rest with ⟨csp, crest⟩
          simp only [step, henv, hc] at hstep
          simp at hstep
          refine ⟨csp, crest, ?_, ?_⟩
          · exact hstep.2.2.symm
          · intro x hx
            refine collapseNulls_head (Span.fromSelfToOther psp sp) rest x ?_
            rw [hc]
            exact hx
      | value n =>
        rcases hc : collapseNulls (Span.fromSelfToOther psp sp) rest with ⟨csp, crest⟩
        simp only [step, hc] at hstep
        cases hstep
        refine ⟨csp, crest, rfl, ?_⟩
        intro x hx
        refine collapseNulls_head (Span.fromSelfToOther psp sp) rest x ?_
        rw [hc]
        exact hx
      | null =>
        rcases hc : collapseNulls (Span.fromSelfToOther psp sp) rest with ⟨csp, crest⟩
        simp only [step, hc] at hstep
        cases hstep
        refine ⟨csp, crest, rfl, ?_⟩
        intro x hx
        refine collapseNulls_head (Span.fromSelfToOther psp sp) rest x ?_
        rw [hc]
        exact hx
  · intro env out idv esp sp rest henv
    simp [step, henv]

/-- C7 (witness): three consecutive semicolons collapse to the single
`Null` entry spanning [0, 3). -/
theorem claimC7_witness :
    (1 : Nat) ≤ 3 ∧
    runList [] [] [] (semiToks 3) = .ok [] [] [⟨.null, ⟨0, 3⟩⟩] :=
  ⟨by decide, claimC7.1 3 [] (by decide)⟩

/-- C8: evaluation is a left-to-right fold that stops at the first failing
step: running a token list that continues past a prefix behaves exactly as
running the prefix and, only when that succeeded, continuing from its
resulting environment, output and stack. In particular an error outcome of
the prefix — which carries the environment as already mutated by every
`Equals` executed before the error — is the outcome of the whole list,
unchanged by any later token, and a successful run consumed every token. -/
theorem claimC8 (env : Env) (out : List F64) (stack : List (Spanned Stack))
    (pre post : List (Spanned Token)) :
    runList env out stack (pre ++ post) =
      match runList env out stack pre with
      | .ok env2 out2 stack2 => runList env2 out2 stack2 post
      | .err e env2 out2 => .err e env2 out2
      | .panic => .panic :=
  runList_append env out stack pre post

/-- C9: the Div arm raises no language error for a zero divisor: once both
operands resolve to numbers, the IEEE-754 quotient is pushed
unconditionally; dividing 1 by 0 yields positive infinity; and the full
line `1 / 0;` evaluates without error. -/
theorem claimC9 :
    (∀ (env : Env) (out : List F64) (r l : Spanned Stack)
        (rest : List (Spanned Stack)) (tokSp : Span) (b a : Spanned F64),
      popNumber env (r :: l :: rest) = .ok b (l :: rest) →
      popNumber env (l :: rest) = .ok a rest →
      step env out (r :: l :: rest) ⟨.operator .div, tokSp⟩ =
        .ok env out (⟨.value (f64Div a.inner b.inner),
          a.span.fromSelfToOther b.span⟩ :: rest)) ∧
    f64Div (.finite 1) (.finite 0) = .posInf ∧
    (lexLine "1 / 0;" =
      [.ok ⟨.number (.finite 1), ⟨0, 1⟩⟩,
       .ok ⟨.symbol .div, ⟨2, 3⟩⟩,
       .ok ⟨.number (.finite 0), ⟨4, 5⟩⟩,
       .ok ⟨.symbol .semicolon, ⟨5, 6⟩⟩] ∧
     runRaws []
       [⟨.number (.finite 1), ⟨0, 1⟩⟩, ⟨.symbol .div, ⟨2, 3⟩⟩,
        ⟨.number (.finite 0), ⟨4, 5⟩⟩, ⟨.symbol .semicolon, ⟨5, 6⟩⟩] =
       .ok [] [] [⟨.null, ⟨0, 6⟩⟩]) := by
  refine ⟨?_, by decide, lexLine_one_div_zero, by decide⟩
  intro env out r l rest tokSp b a h1 h2
  simp [step, binArm, h1, h2]

/-- C9 (witness): the Div step at the concrete stack `1, 0`: no error, the
pushed value is `1 / 0 = +∞`. -/
theorem claimC9_witness :
    popNumber [] [⟨.value (F64.finite 0), ⟨4, 5⟩⟩, ⟨.value (F64.finite 1), ⟨0, 1⟩⟩] =
      .ok ⟨F64.finite 0, ⟨4, 5⟩⟩ [⟨.value (F64.finite 1), ⟨0, 1⟩⟩] ∧
    step [] [] [⟨.value (F64.finite 0), ⟨4, 5⟩⟩, ⟨.value (F64.finite 1), ⟨0, 1⟩⟩]
        ⟨.operator .div, ⟨2, 3⟩⟩ =
      .ok [] [] [⟨.value (f64Div (F64.finite 1) (F64.finite 0)),
        Span.fromSelfToOther ⟨0, 1⟩ ⟨4, 5⟩⟩] :=
  ⟨by decide,
   claimC9.1 [] [] ⟨.value (F64.finite 0), ⟨4, 5⟩⟩ ⟨.value (F64.finite 1), ⟨0, 1⟩⟩
     [] ⟨2, 3⟩ ⟨F64.finite 0, ⟨4, 5⟩⟩ ⟨F64.finite 1, ⟨0, 1⟩⟩
     (by decide) (by decide)⟩

/-- C10: executing `Print` when the top entry is an unresolved identifier
with no binding in the environment fails `UnassignedVariable` at that
entry's span (a failure mode the spec's Print rule does not name). -/
theorem claimC10 (env : Env) (out : List F64) (idv : Id) (sp tokSp : Span)
    (rest : List (Spanned Stack)) (h : envLookup env idv = none) :
    step env out (⟨.ident idv, sp⟩ :: rest) ⟨.operator .print, tokSp⟩ =
      .fail ⟨.runError .unassignedVariable, sp⟩ := by
  simp [step, h]

/-- C10 (witness): printing the unbound identifier `a` from the empty
environment fails `UnassignedVariable` at the identifier's span. -/
theorem claimC10_witness :
    envLookup [] "a" = none ∧
    step [] [] [⟨.ident "a", ⟨0, 1⟩⟩] ⟨.operator .print, ⟨2, 3⟩⟩ =
      .fail ⟨.runError .unassignedVariable, ⟨0, 1⟩⟩ :=
  ⟨by decide, claimC10 [] [] "a" ⟨0, 1⟩ ⟨2, 3⟩ [] (by decide)⟩

/-- The resolved token an operator stack entry is emitted as. -/
def opTok (t : Spanned Operator) : Spanned Token := ⟨.operator t.inner, t.span⟩

/-- Guard on the resolver stack: its top does not interact with incoming
operators of precedence at least b (it is empty, an open paren barrier, or
an operator of lower precedence). -/
def topOk : List OpEntry → Nat → Prop
  | [], _ => True
  | .lparen _ :: _, _ => True
  | .op t :: _, b => precOf t.inner < b

lemma topOk_le {s : List OpEntry} {b c : Nat} (h : b ≤ c) (hs : topOk s b) :
    topOk s c := by
  cases s with
  | nil => trivial
  | cons x rest =>
    cases x with
    | op t =>
      simp only [topOk] at hs ⊢
      omega
    | lparen sp => trivial

lemma processList_cons (m : TokenTree) (s : List OpEntry) (t : Spanned RawToken)
    (ts : List (Spanned RawToken)) :
    processList m s (t :: ts) =
      match procStep m s t with
      | .error e => .fail [] e
      | .ok (out, m2, s2) =>
        match processList m2 s2 ts with
        | .cont out2 m3 s3 => .cont (out ++ out2) m3 s3
        | .fail out2 e => .fail (out ++ out2) e := rfl

lemma processList_append (m : TokenTree) (s : List OpEntry)
    (xs ys : List (Spanned RawToken)) :
    processList m s (xs ++ ys) =
      match processList m s xs with
      | .cont out m2 s2 =>
        match processList m2 s2 ys with
        | .cont out2 m3 s3 => .cont (out ++ out2) m3 s3
        | .fail out2 e => .fail (out ++ out2) e
      | .fail out e => .fail out e := by
  induction xs generalizing m s with
  | nil =>
    simp only [List.nil_append, processList]
    cases processList m s ys <;> simp
  | cons t ts ih =>
    simp only [List.cons_append, processList_cons]
    cases procStep m s t with
    | error e => rfl
    | ok r =>
      obtain ⟨out, m2, s2⟩ := r
      simp only
      rw [ih m2 s2]
      cases processList m2 s2 ts with
      | cont o2 m3 s3 =>
        cases h : processList m3 s3 ys <;> simp [h]
      | fail o2 e => rfl

lemma popForOp_stop (s : List OpEntry) (o : Operator) (b : Nat)
    (hb : b ≤ precOf o) (hs : topOk s b) : popForOp s o = ([], s) := by
  cases s with
  | nil => rfl
  | cons x rest =>
    cases x with
    | lparen sp => rfl
    | op t =>
      simp only [topOk] at hs
      have h1 : ¬ precOf o < precOf t.inner := by omega
      have h2 : ¬ precOf t.inner = precOf o := by omega
      simp [popForOp, mustPrecede, h1, h2]

lemma popForOp_pending (o : Operator) (ho : assocOf o = .left) :
    ∀ (pending : List (Spanned Operator)) (s : List OpEntry) (b : Nat),
      (∀ t ∈ pending, precOf o ≤ precOf t.inner) → b ≤ precOf o → topOk s b →
      popForOp (pending.map OpEntry.op ++ s) o = (pending.map opTok, s)
  | [], s, b, _, hb, hs => by simpa using popForOp_stop s o b hb hs
  | t :: rest, s, b, hp, hb, hs => by
      have hle : precOf o ≤ precOf t.inner := hp t (by simp)
      have hrec := popForOp_pending o ho rest s b
        (fun x hx => hp x (by simp [hx])) hb hs
      have hm : mustPrecede t.inner o = true := by
        simp only [mustPrecede, ho, Bool.or_eq_true, decide_eq_true_eq,
          Bool.and_eq_true, beq_iff_eq, and_true]
        omega
      simp [popForOp, hm, hrec, opTok]

lemma popToParen_pending :
    ∀ (pending : List (Spanned Operator)) (sp : Span) (s : List OpEntry),
      popToParen (pending.map OpEntry.op ++ (.lparen sp :: s)) =
        some (pending.map opTok, s)
  | [], sp, s => by simp [popToParen]
  | t :: rest, sp, s => by
      simp [popToParen, popToParen_pending rest sp s, opTok]

lemma flushStack_ops :
    ∀ pending : List (Spanned Operator),
      flushStack (pending.map OpEntry.op) = (pending.map opTok, none)
  | [] => rfl
  | t :: rest => by simp [flushStack, flushStack_ops rest, opTok]

lemma transition_binop (o : BinOp) (sp : Span) :
    transition .endExpression ⟨.symbol (symOf o), sp⟩ =
      .ok (.resolved ⟨.operator (opOf o), sp⟩) := by
  cases o <;> rfl

lemma precOf_opOf (o : BinOp) : precOf (opOf o) = precB o := by
  cases o <;> rfl

lemma assocOf_opOf (o : BinOp) : assocOf (opOf o) = .left := by
  cases o <;> rfl

/-- Core resolver-correctness induction. Processing the rendering of a
well-formed expression from the expect-value state over a guarded stack
emits the expression's postfix form except for a trailing block of pending
operators left on the stack (all of precedence at least the guard), and
leaves the mode at expect-operator. -/
lemma processRender :
    ∀ (e : AExpr) (b : Nat) (s : List OpEntry),
      respectsB e = true → b ≤ nprec e → topOk s b →
      ∃ (out : List (Spanned Token)) (pending : List (Spanned Operator)),
        processList .startExpression s (render e) =
          .cont out .endExpression (pending.map OpEntry.op ++ s) ∧
        out.map Spanned.inner ++ pending.map (fun t => Token.operator t.inner) =
          rpn e ∧
        (∀ t ∈ pending, b ≤ precOf t.inner)
  | .num n, b, s, _, _, _ => by
      refine ⟨[⟨.value (.number n), defaultSpan⟩], [], ?_, ?_, ?_⟩
      · simp [render, processList, procStep, transition, fromEntry]
      · simp [rpn]
      · simp
  | .var idv, b, s, _, _, _ => by
      refine ⟨[⟨.value (.ident idv), defaultSpan⟩], [], ?_, ?_, ?_⟩
      · simp [render, processList, procStep, transition, fromEntry]
      · simp [rpn]
      · simp
  | .paren e, b, s, hr, hb, hs => by
      have hr2 : respectsB e = true := by simpa [respectsB] using hr
      obtain ⟨out, pending, H, Hmap, -⟩ :=
        processRender e 0 (.lparen defaultSpan :: s) hr2 (Nat.zero_le _) trivial
      refine ⟨out ++ pending.map opTok, [], ?_, ?_, ?_⟩
      · rw [show render (.paren e) =
          ⟨.symbol .leftParen, defaultSpan⟩ ::
            (render e ++ [⟨.symbol .rightParen, defaultSpan⟩]) from rfl]
        rw [processList_cons]
        simp only [procStep, transition, fromEntry]
        rw [processList_append, H]
        simp [processList_cons, processList, procStep, transition, fromEntry,
          popToParen_pending]
      · simp only [List.map_append, List.map_nil, List.append_nil, List.append_assoc]
        rw [show rpn (.paren e) = rpn e from rfl, ← Hmap]
        simp [opTok, Function.comp]
      · simp
  | .bin o l r, b, s, hr, hb, hs => by
      have hb2 : b ≤ precB o := by simpa [nprec] using hb
      simp only [respectsB, Bool.and_eq_true, decide_eq_true_eq] at hr
      obtain ⟨⟨⟨hrl, hrr⟩, h1⟩, h2⟩ := hr
      obtain ⟨out1, pend1, H1, Hmap1, Hp1⟩ :=
        processRender l (precB o) s hrl h1 (topOk_le hb2 hs)
      obtain ⟨out2, pend2, H2, Hmap2, Hp2⟩ :=
        processRender r (precB o + 1) (.op ⟨opOf o, defaultSpan⟩ :: s) hrr h2
          (by simp [topOk, precOf_opOf])
      have hpop : popForOp (pend1.map OpEntry.op ++ s) (opOf o) =
          (pend1.map opTok, s) := by
        rw [popForOp_pending (opOf o) (assocOf_opOf o) pend1 s b ?_ ?_ hs]
        · intro t ht
          rw [precOf_opOf]
          exact Hp1 t ht
        · rw [precOf_opOf]
          exact hb2
      refine ⟨out1 ++ (pend1.map opTok ++ out2), pend2 ++ [⟨opOf o, defaultSpan⟩],
        ?_, ?_, ?_⟩
      · rw [show render (.bin o l r) =
          render l ++ (⟨.symbol (symOf o), defaultSpan⟩ :: render r) from rfl]
        rw [processList_append, H1]
        simp only [processList_cons, procStep, transition_binop, fromEntry, hpop]
        simp [H2, List.map_append, List.append_assoc]
      · simp only [List.map_append, List.append_assoc]
        rw [show rpn (.bin o l r) = rpn l ++ (rpn r ++ [.operator (opOf o)]) from by
          simp [rpn]]
        rw [← Hmap1, ← Hmap2]
        simp [opTok, Function.comp, List.append_assoc]
      · intro t ht
        simp only [List.mem_append, List.mem_singleton] at ht
        rcases ht with ht | ht
        · have := Hp2 t ht
          omega
        · subst ht
          simp only [precOf_opOf]
          exact hb2

/-- The resolver on the rendering of a well-formed expression: the emitted
payload sequence is exactly the postfix form, with no structural error. -/
lemma resolvedTokens_render (e : AExpr) (hr : respectsB e = true) :
    (resolvedTokens (render e)).1.map Spanned.inner = rpn e ∧
    (resolvedTokens (render e)).2 = none := by
  obtain ⟨out, pending, H, Hmap, -⟩ :=
    processRender e 0 [] hr (Nat.zero_le _) trivial
  simp only [List.append_nil] at H
  rw [show resolvedTokens (render e) =
    (match processList .startExpression [] (render e) with
      | .cont out _ stack =>
        let (out2, e) := flushStack stack
        (out ++ out2, e)
      | .fail out e => (out, some e)) from rfl]
  rw [H]
  simp only [flushStack_ops pending]
  constructor
  · simp only [List.map_append]
    rw [← Hmap]
    simp [opTok, Function.comp]
  · trivial

/-- C2: for every well-bracketed expression built only from
numbers/identifiers, the operators + - * / and parentheses (every such
token string is the rendering of a unique precedence-respecting tree `e`),
the resolver's output payload sequence equals the expression's standard
postfix (RPN) form under the spec's precedence table, with value tokens in
input order interleaved with popped operators, and no structural error. -/
theorem claimC2 (e : AExpr) (hr : respectsB e = true) :
    (resolvedTokens (render e)).1.map Spanned.inner = rpn e ∧
    (resolvedTokens (render e)).2 = none :=
  resolvedTokens_render e hr

/-- C2 (witness): the expression `2 * (3 + 4)` resolves to the postfix
sequence `2 3 4 + *`. -/
theorem claimC2_witness :
    respectsB (.bin .mul (.num (.finite 2))
        (.paren (.bin .add (.num (.finite 3)) (.num (.finite 4))))) = true ∧
    ((resolvedTokens (render (.bin .mul (.num (.finite 2))
        (.paren (.bin .add (.num (.finite 3)) (.num (.finite 4))))))).1.map
          Spanned.inner =
      rpn (.bin .mul (.num (.finite 2))
        (.paren (.bin .add (.num (.finite 3)) (.num (.finite 4))))) ∧
     (resolvedTokens (render (.bin .mul (.num (.finite 2))
        (.paren (.bin .add (.num (.finite 3)) (.num (.finite 4))))))).2 = none) :=
  ⟨by decide,
   claimC2 (.bin .mul (.num (.finite 2))
     (.paren (.bin .add (.num (.finite 3)) (.num (.finite 4))))) (by decide)⟩

lemma popNumber_cases (env : Env) (x : Spanned Stack) (rest : List (Spanned Stack)) :
    (∃ n, popNumber env (x :: rest) = .ok n rest) ∨
    (∃ e, popNumber env (x :: rest) = .fail e) := by
  obtain ⟨xi, xsp⟩ := x
  cases xi with
  | value n => exact Or.inl ⟨⟨n, xsp⟩, rfl⟩
  | ident idv =>
    cases h : envLookup env idv with
    | none =>
      exact Or.inr ⟨⟨.runError .unassignedVariable, xsp⟩, by simp [popNumber, h]⟩
    | some v => exact Or.inl ⟨⟨v, xsp⟩, by simp [popNumber, h]⟩
  | null => exact Or.inr ⟨⟨.runError .attemptedToUseNull, xsp⟩, rfl⟩

lemma binArm_shape (f : F64 → F64 → F64) (env : Env) (out : List F64)
    (x y : Spanned Stack) (s : List (Spanned Stack)) :
    (∃ entry, binArm f env out (x :: y :: s) = .ok env out (entry :: s)) ∨
    (∃ er, binArm f env out (x :: y :: s) = .fail er) := by
  rcases popNumber_cases env x (y :: s) with ⟨n, hn⟩ | ⟨er, her⟩
  · rcases popNumber_cases env y s with ⟨m, hm⟩ | ⟨er, her⟩
    · exact Or.inl ⟨⟨.value (f m.inner n.inner), m.span.fromSelfToOther n.span⟩,
        by simp [binArm, hn, hm]⟩
    · exact Or.inr ⟨er, by simp [binArm, hn, her]⟩
  · exact Or.inr ⟨er, by simp [binArm, her]⟩

lemma step_binop_shape (o : BinOp) (env : Env) (out : List F64)
    (x y : Spanned Stack) (s : List (Spanned Stack)) (tokSp : Span) :
    (∃ entry, step env out (x :: y :: s) ⟨.operator (opOf o), tokSp⟩ =
      .ok env out (entry :: s)) ∨
    (∃ er, step env out (x :: y :: s) ⟨.operator (opOf o), tokSp⟩ = .fail er) := by
  cases o <;>
    simpa only [step, opOf] using binArm_shape _ env out x y s

/-- Evaluating any postfix sequence of a well-bracketed arithmetic
expression never underflows: it either pushes exactly one entry over the
incoming stack (environment and output untouched) or stops at a runtime
error, but never reaches a pop of the empty stack. -/
lemma evalRpn :
    ∀ (e : AExpr) (ts : List (Spanned Token)) (env : Env) (out : List F64)
      (s : List (Spanned Stack)), ts.map Spanned.inner = rpn e →
      (∃ entry, runList env out s ts = .ok env out (entry :: s)) ∨
      (∃ er, runList env out s ts = .err er env out)
  | .num n, ts, env, out, s, h => by
      rw [show rpn (.num n) = [.value (.number n)] from rfl] at h
      cases ts with
      | nil => exact absurd h (by simp)
      | cons t rest =>
        obtain ⟨ti, tsp⟩ := t
        simp only [List.map_cons, List.cons.injEq] at h
        obtain ⟨h1, h2⟩ := h
        rw [List.map_eq_nil_iff] at h2
        subst h2
        subst h1
        exact Or.inl ⟨⟨.value n, tsp⟩, by simp [runList, step]⟩
  | .var idv, ts, env, out, s, h => by
      rw [show rpn (.var idv) = [.value (.ident idv)] from rfl] at h
      cases ts with
      | nil => exact absurd h (by simp)
      | cons t rest =>
        obtain ⟨ti, tsp⟩ := t
        simp only [List.map_cons, List.cons.injEq] at h
        obtain ⟨h1, h2⟩ := h
        rw [List.map_eq_nil_iff] at h2
        subst h2
        subst h1
        exact Or.inl ⟨⟨.ident idv, tsp⟩, by simp [runList, step]⟩
  | .paren e, ts, env, out, s, h => evalRpn e ts env out s h
  | .bin o l r, ts, env, out, s, h => by
      rw [show rpn (.bin o l r) = rpn l ++ (rpn r ++ [.operator (opOf o)]) from by
        simp [rpn]] at h
      rw [List.map_eq_append_iff] at h
      obtain ⟨ts1, ts23, hsplit, hm1, hm23⟩ := h
      rw [List.map_eq_append_iff] at hm23
      obtain ⟨ts2, ts3, hsplit2, hm2, hm3⟩ := hm23
      subst hsplit2
      subst hsplit
      rcases evalRpn l ts1 env out s hm1 with ⟨e1, h1⟩ | ⟨er, her⟩
      · have hrun1 : runList env out s (ts1 ++ (ts2 ++ ts3)) =
            runList env out (e1 :: s) (ts2 ++ ts3) := by
          rw [runList_append, h1]
        rw [hrun1]
        rcases evalRpn r ts2 env out (e1 :: s) hm2 with ⟨e2, h2⟩ | ⟨er, her⟩
        · have hrun2 : runList env out (e1 :: s) (ts2 ++ ts3) =
              runList env out (e2 :: e1 :: s) ts3 := by
            rw [runList_append, h2]
          rw [hrun2]
          cases ts3 with
          | nil => simp at hm3
          | cons t3 rest3 =>
            obtain ⟨t3i, t3sp⟩ := t3
            simp only [List.map_cons, List.cons.injEq] at hm3
            obtain ⟨hm31, hm32⟩ := hm3
            rw [List.map_eq_nil_iff] at hm32
            subst hm32
            subst hm31
            rcases step_binop_shape o env out e2 e1 s t3sp with ⟨entry, hst⟩ | ⟨er, hst⟩
            · exact Or.inl ⟨entry, by simp [runList, hst]⟩
            · exact Or.inr ⟨er, by simp [runList, hst]⟩
        · have hrun2 : runList env out (e1 :: s) (ts2 ++ ts3) = .err er env out := by
            rw [runList_append, her]
          exact Or.inr ⟨er, hrun2⟩
      · have hrun1 : runList env out s (ts1 ++ (ts2 ++ ts3)) = .err er env out := by
          rw [runList_append, her]
        exact Or.inr ⟨er, hrun1⟩

lemma step_semicolon_no_panic (env : Env) (out : List F64)
    (stack : List (Spanned Stack)) (sp : Span) :
    step env out stack ⟨.operator .semicolon, sp⟩ ≠ .panic := by
  cases stack with
  | nil => simp [step]
  | cons p rest =>
    obtain ⟨pi, psp⟩ := p
    rcases hc : collapseNulls (Span.fromSelfToOther psp sp) rest with ⟨csp, crest⟩
    cases pi with
    | ident idv =>
      cases h : envLookup env idv with
      | none => simp [step, h]
      | some v => simp [step, h, hc]
    | value n => simp [step, hc]
    | null => simp [step, hc]

/-- C1 (amended): stack-underflow safety does not hold for every
resolver-accepted line (see the counterexample: the accepted line `%`
aborts), but it holds on the well-bracketed arithmetic expression lines of
C2: for such a line the resolver output is the expression's postfix form,
every operator finds the operands its arity requires on the evaluation
stack, and the evaluator (including the implicit trailing semicolon) never
aborts from stack underflow. -/
theorem claimC1 (env : Env) (e : AExpr) (hr : respectsB e = true) :
    runRaws env (render e) ≠ .panic := by
  obtain ⟨hmap, hnone⟩ := resolvedTokens_render e hr
  rw [show runRaws env (render e) = runProgram env (resolvedTokens (render e))
    from rfl]
  rcases hres : resolvedTokens (render e) with ⟨ts, errOpt⟩
  rw [hres] at hmap hnone
  simp only at hmap hnone
  subst hnone
  rcases evalRpn e ts env [] [] hmap with ⟨entry, hok⟩ | ⟨er, herr⟩
  · rw [show runProgram env (ts, none) =
      (match runList env [] [] ts with
        | .ok env2 out2 stack2 =>
          match step env2 out2 stack2 ⟨.operator .semicolon, defaultSpan⟩ with
          | .ok env3 out3 stack3 => RunOutcome.ok env3 out3 stack3
          | .fail e => RunOutcome.err e env2 out2
          | .panic => RunOutcome.panic
        | .err e env2 out2 => RunOutcome.err e env2 out2
        | .panic => RunOutcome.panic) from rfl]
    rw [hok]
    rcases hstep : step env [] [entry] ⟨.operator .semicolon, defaultSpan⟩ with
      e3 | e3 | _
    · simp [hstep]
    · simp [hstep]
    · exact absurd hstep (step_semicolon_no_panic env [] [entry] defaultSpan)
  · rw [show runProgram env (ts, none) =
      (match runList env [] [] ts with
        | .ok env2 out2 stack2 =>
          match step env2 out2 stack2 ⟨.operator .semicolon, defaultSpan⟩ with
          | .ok env3 out3 stack3 => RunOutcome.ok env3 out3 stack3
          | .fail e => RunOutcome.err e env2 out2
          | .panic => RunOutcome.panic
        | .err e env2 out2 => RunOutcome.err e env2 out2
        | .panic => RunOutcome.panic) from rfl]
    rw [herr]
    simp

/-- C1 (witness): the line `1 + 2` (a well-bracketed arithmetic
expression) is evaluated without any abort. -/
theorem claimC1_witness :
    respectsB (.bin .add (.num (.finite 1)) (.num (.finite 2))) = true ∧
    runRaws [] (render (.bin .add (.num (.finite 1)) (.num (.finite 2)))) ≠
      .panic :=
  ⟨by decide,
   claimC1 [] (.bin .add (.num (.finite 1)) (.num (.finite 2))) (by decide)⟩

lemma flushStack_firstLParen :
    ∀ (s : List OpEntry) (sp : Span), firstLParen s = some sp →
      (flushStack s).2 = some ⟨.unclosedLeftBracket, sp⟩
  | [], sp, h => by simp [firstLParen] at h
  | .op t :: rest, sp, h => by
      rcases hf : flushStack rest with ⟨o2, e2⟩
      have := flushStack_firstLParen rest sp (by simpa [firstLParen] using h)
      rw [hf] at this
      simp only [flushStack, hf]
      exact this
  | .lparen sp2 :: rest, sp, h => by
      simp only [firstLParen, Option.some.injEq] at h
      subst h
      rfl

lemma popToParen_none :
    ∀ s : List OpEntry, firstLParen s = none → popToParen s = none
  | [], _ => rfl
  | .op t :: rest, h => by
      simp only [firstLParen] at h
      simp [popToParen, popToParen_none rest h]
  | .lparen sp :: rest, h => by simp [firstLParen] at h

/-- C3: bracket errors of the resolver. (a) When the whole token stream is
consumed without a structural error and an unmatched `(` remains on the
operator stack, the resolver fails with `UnclosedLeftBracket` at that
paren's span (the topmost such paren, reached by the end-of-input flush).
(b) When a `)` arrives (in the expect-operator state, the only state that
reads it as a bracket) and no `(` is on the stack, the resolver fails with
`UnclosedRightBracket` at that `)` token's span, whatever follows. -/
theorem claimC3 :
    (∀ (ts : List (Spanned RawToken)) (out : List (Spanned Token))
        (mode : TokenTree) (stack : List OpEntry) (sp : Span),
      processList .startExpression [] ts = .cont out mode stack →
      firstLParen stack = some sp →
      (resolvedTokens ts).2 = some ⟨.unclosedLeftBracket, sp⟩) ∧
    (∀ (pre suffix : List (Spanned RawToken)) (out : List (Spanned Token))
        (stack : List OpEntry) (sp : Span),
      processList .startExpression [] pre = .cont out .endExpression stack →
      firstLParen stack = none →
      (resolvedTokens (pre ++ ⟨.symbol .rightParen, sp⟩ :: suffix)).2 =
        some ⟨.unclosedRightBracket, sp⟩) := by
  constructor
  · intro ts out mode stack sp hproc hlp
    have hf := flushStack_firstLParen stack sp hlp
    rcases hfs : flushStack stack with ⟨o2, e2⟩
    rw [hfs] at hf
    simp only at hf
    subst hf
    rw [show resolvedTokens ts =
      (match processList .startExpression [] ts with
        | .cont out _ stack =>
          let (out2, e) := flushStack stack
          (out ++ out2, e)
        | .fail out e => (out, some e)) from rfl]
    rw [hproc]
    simp [hfs]
  · intro pre suffix out stack sp hproc hlp
    rw [show resolvedTokens (pre ++ ⟨.symbol .rightParen, sp⟩ :: suffix) =
      (match processList .startExpression []
          (pre ++ ⟨.symbol .rightParen, sp⟩ :: suffix) with
        | .cont out _ stack =>
          let (out2, e) := flushStack stack
          (out ++ out2, e)
        | .fail out e => (out, some e)) from rfl]
    rw [processList_append, hproc]
    simp only [processList_cons, procStep, transition, fromEntry,
      popToParen_none stack hlp]

/-- C3 (witness): `(1 + 2` fails `UnclosedLeftBracket` at the `(` span
[0,1), and `2 + 3)` fails `UnclosedRightBracket` at the `)` span [5,6). -/
theorem claimC3_witness :
    ((resolvedTokens
        [⟨.symbol .leftParen, ⟨0, 1⟩⟩, ⟨.number (.finite 1), ⟨1, 2⟩⟩,
         ⟨.symbol .add, ⟨3, 4⟩⟩, ⟨.number (.finite 2), ⟨5, 6⟩⟩]).2 =
      some ⟨.unclosedLeftBracket, ⟨0, 1⟩⟩) ∧
    ((resolvedTokens
        ([⟨.number (.finite 2), ⟨0, 1⟩⟩, ⟨.symbol .add, ⟨2, 3⟩⟩,
          ⟨.number (.finite 3), ⟨4, 5⟩⟩] ++ ⟨.symbol .rightParen, ⟨5, 6⟩⟩ :: [])).2 =
      some ⟨.unclosedRightBracket, ⟨5, 6⟩⟩) :=
  ⟨claimC3.1
    [⟨.symbol .leftParen, ⟨0, 1⟩⟩, ⟨.number (.finite 1), ⟨1, 2⟩⟩,
     ⟨.symbol .add, ⟨3, 4⟩⟩, ⟨.number (.finite 2), ⟨5, 6⟩⟩]
    [⟨.value (.number (.finite 1)), ⟨1, 2⟩⟩, ⟨.value (.number (.finite 2)), ⟨5, 6⟩⟩]
    .endExpression
    [.op ⟨.add, ⟨3, 4⟩⟩, .lparen ⟨0, 1⟩] ⟨0, 1⟩ (by decide) (by decide),
   claimC3.2
    [⟨.number (.finite 2), ⟨0, 1⟩⟩, ⟨.symbol .add, ⟨2, 3⟩⟩,
     ⟨.number (.finite 3), ⟨4, 5⟩⟩] []
    [⟨.value (.number (.finite 2)), ⟨0, 1⟩⟩, ⟨.value (.number (.finite 3)), ⟨4, 5⟩⟩]
    [.op ⟨.add, ⟨2, 3⟩⟩] ⟨5, 6⟩ (by decide) (by decide)⟩

end CalcLang
